import Mathlib

/-!
Shallow embedding of the polyscope point-cloud structure
(`src/point_cloud.cpp`, `include/polyscope/point_cloud.h`):
the quantity registry, the active-drawing-quantity protocol, the render
pass, and the derived geometry (bounding box, length scale).

Floating-point `glm::vec3` coordinates are modelled as exact rationals;
the `±inf` initialisers of the bounding-box fold are modelled with an
extended-rational type `ERat`.  Heap objects (quantities,
GL programs) are modelled by value, with a per-structure counter handing
out fresh identities standing in for pointer addresses.
-/

namespace Polyscope

/-- Componentwise 3-vector (models `glm::vec3`; `α` is `ℚ` for finite
coordinates or `ERat` for the extended values in the bounding-box fold). -/
structure V3 (α : Type) where
  x : α
  y : α
  z : α
deriving DecidableEq, Repr

abbrev Vec3 := V3 ℚ

/-- The action of the `glm::mat4` field `objectTransform` on a point:
`glm::vec3(objectTransform * glm::vec4(p, 1.0))` reads only the xyz rows of
the matrix, i.e. a 3×3 linear part plus a translation column. -/
structure Affine where
  a00 : ℚ
  a01 : ℚ
  a02 : ℚ
  tx : ℚ
  a10 : ℚ
  a11 : ℚ
  a12 : ℚ
  ty : ℚ
  a20 : ℚ
  a21 : ℚ
  a22 : ℚ
  tz : ℚ
deriving DecidableEq, Repr

def applyAffine (m : Affine) (p : Vec3) : Vec3 :=
  ⟨m.a00 * p.x + m.a01 * p.y + m.a02 * p.z + m.tx,
   m.a10 * p.x + m.a11 * p.y + m.a12 * p.z + m.ty,
   m.a20 * p.x + m.a21 * p.y + m.a22 * p.z + m.tz⟩

def idAffine : Affine := ⟨1, 0, 0, 0, 0, 1, 0, 0, 0, 0, 1, 0⟩

/-- Translation by `(tx, ty, tz)` (identity linear part). -/
def translation (tx ty tz : ℚ) : Affine := ⟨1, 0, 0, tx, 0, 1, 0, ty, 0, 0, 1, tz⟩

/-- Extended rationals: rationals together with `+inf` and `-inf`, the float
infinities used as identities of the bounding-box min/max fold. -/
inductive ERat where
  | mInf : ERat
  | fin : ℚ → ERat
  | pInf : ERat
deriving DecidableEq, Repr

def toERat (q : ℚ) : ERat := ERat.fin q

/-- Read a finite extended rational back as a rational; the infinite values
map to the junk value 0 (standing in for the float NaN/inf that the C++
code produces but never reads on those paths). -/
def toRatOr0 : ERat → ℚ
  | ERat.fin q => q
  | _ => 0

/-- Minimum of two extended rationals (float `min` on values that are never
NaN). -/
def emin : ERat → ERat → ERat
  | ERat.mInf, _ => ERat.mInf
  | _, ERat.mInf => ERat.mInf
  | ERat.pInf, b => b
  | a, ERat.pInf => a
  | ERat.fin a, ERat.fin b => ERat.fin (min a b)

/-- Maximum of two extended rationals. -/
def emax : ERat → ERat → ERat
  | ERat.pInf, _ => ERat.pInf
  | _, ERat.pInf => ERat.pInf
  | ERat.mInf, b => b
  | a, ERat.mInf => a
  | ERat.fin a, ERat.fin b => ERat.fin (max a b)

/-- Strict order on extended rationals. -/
def elt : ERat → ERat → Prop
  | ERat.mInf, ERat.mInf => False
  | ERat.mInf, _ => True
  | ERat.fin a, ERat.fin b => a < b
  | ERat.fin _, ERat.pInf => True
  | _, _ => False

def coeV3 (p : Vec3) : V3 ERat := ⟨toERat p.x, toERat p.y, toERat p.z⟩

/-- `componentwiseMin` of the source. -/
def cmin (a b : V3 ERat) : V3 ERat := ⟨emin a.x b.x, emin a.y b.y, emin a.z b.z⟩

/-- `componentwiseMax` of the source. -/
def cmax (a b : V3 ERat) : V3 ERat := ⟨emax a.x b.x, emax a.y b.y, emax a.z b.z⟩

/-- `glm::length2 p` : squared Euclidean norm. -/
def len2 (p : Vec3) : ℚ := p.x * p.x + p.y * p.y + p.z * p.z

def subV (a b : Vec3) : Vec3 := ⟨a.x - b.x, a.y - b.y, a.z - b.z⟩

/-- A quantity attached to a point cloud (`PointCloudQuantity`, with the
subclass `PointCloudQuantityThatDrawsPoints` flagged by `drawsPoints`).
`qid` stands in for the heap object identity (the pointer value). -/
structure Quantity where
  qid : ℕ
  qname : String
  drawsPoints : Bool
  enabled : Bool
deriving DecidableEq, Repr

/-- A GL program handle together with how it was built: the structure's
default sphere program, a program created by the drawing quantity with the
given identity, or a pick program. -/
inductive Prog where
  | defaultSphere : Prog
  | fromQuantity : ℕ → Prog
  | pickSphere : Prog
deriving DecidableEq, Repr

/-- The state of one `PointCloud` object (the fields of the class that the
specified operations read or write). -/
structure PCState where
  points : List Vec3
  enabled : Bool
  pointColor : Vec3
  pointRadius : ℚ
  objectTransform : Affine
  program : Option Prog
  pickProgram : Option Prog
  quantities : List Quantity
  activePointQuantity : Option ℕ
  nextId : ℕ
deriving DecidableEq, Repr

/-- State after the `PointCloud` constructor: empty registry, no active
quantity, `prepare()` and `preparePick()` already run (so both programs
exist), `enabled = true`, default radius 0.005. -/
def initPC (pts : List Vec3) (m : Affine) : PCState :=
  { points := pts
    enabled := true
    pointColor := ⟨0, 0, 0⟩
    pointRadius := 1 / 200
    objectTransform := m
    program := some Prog.defaultSphere
    pickProgram := some Prog.pickSphere
    quantities := []
    activePointQuantity := none
    nextId := 0 }

/-- `PointCloud::boundingBox()`: fold componentwise min/max of the
transform-applied positions, starting from `(+inf, -inf)`. -/
def boundingBox (s : PCState) : V3 ERat × V3 ERat :=
  s.points.foldl
    (fun acc rawP =>
      let p := applyAffine s.objectTransform rawP
      (cmin acc.1 (coeV3 p), cmax acc.2 (coeV3 p)))
    (⟨ERat.pInf, ERat.pInf, ERat.pInf⟩, ⟨ERat.mInf, ERat.mInf, ERat.mInf⟩)

/-- The center `0.5f * (min + max)` of the bounding box, as computed in
`PointCloud::lengthScale()`.  When the cloud is empty the float code
produces NaN components; they are junk (0) here and are never read on that
path, because the distance loop below is empty. -/
def bboxCenter (s : PCState) : Vec3 :=
  let bb := boundingBox s
  ⟨(toRatOr0 bb.1.x + toRatOr0 bb.2.x) / 2,
   (toRatOr0 bb.1.y + toRatOr0 bb.2.y) / 2,
   (toRatOr0 bb.1.z + toRatOr0 bb.2.z) / 2⟩

/-- The fold inside `PointCloud::lengthScale()`:
`lengthScale = max(lengthScale, length2(p - center))` over the RAW points
`p` (note: the source does not apply `objectTransform` here), starting
from 0. -/
def maxLen2 (s : PCState) : ℚ :=
  let c := bboxCenter s
  s.points.foldl (fun acc p => max acc (len2 (subV p c))) 0

/-- `lengthScale()` returns `2 * sqrt(maxLen2)`.  `lengthScaleIs s v`
states exactly that `lengthScale()` returns `v`, square-root free:
`v = 2·√(maxLen2 s)` iff `v ≥ 0` and `v² = 4·maxLen2 s`. -/
def lengthScaleIs (s : PCState) (v : ℚ) : Prop :=
  0 ≤ v ∧ v * v = 4 * maxLen2 s

/-- The per-point fold of the spec's words for `lengthScale` ("twice the
maximum Euclidean distance from the bounding-box center to any
TRANSFORMED point"), kept for comparison with `maxLen2`, which the source
computes over raw points. -/
def specMaxLen2 (s : PCState) : ℚ :=
  let c := bboxCenter s
  s.points.foldl
    (fun acc p => max acc (len2 (subV (applyAffine s.objectTransform p) c))) 0

/-- The spec's `lengthScale()` value, square-root free (see
`lengthScaleIs`). -/
def specLengthScaleIs (s : PCState) (v : ℚ) : Prop :=
  0 ≤ v ∧ v * v = 4 * specMaxLen2 s

/-- `quantities.find(name)` on the name-keyed registry (the embedded map is
an association list keyed by each quantity's own `name` field; the
operations below keep names unique, mirroring `std::map`). -/
def findQ (qs : List Quantity) (n : String) : Option Quantity :=
  qs.find? (fun r => r.qname == n)

/-- Write `enabled = b` through a pointer to the quantity with identity
`i` (a write to an object absent from the registry touches no registry
state, like the C++ write through the dangling pointer in
`removeQuantity`). -/
def setEnabledById (qs : List Quantity) (i : ℕ) (b : Bool) : List Quantity :=
  qs.map (fun r => if r.qid = i then { r with enabled := b } else r)

/-- `PointCloud::deleteProgram()`: `safeDelete(program)`. -/
def deleteProgram (s : PCState) : PCState := { s with program := none }

/-- `PointCloud::clearActiveQuantity()`: unconditionally delete the
primary program; then, if an active quantity exists, disable it and null
the reference. -/
def clearActiveQuantity (s : PCState) : PCState :=
  let s1 := deleteProgram s
  match s1.activePointQuantity with
  | none => s1
  | some i =>
      { s1 with
        quantities := setEnabledById s1.quantities i false
        activePointQuantity := none }

/-- `PointCloud::setActiveQuantity(q)` for the drawing quantity with
identity `i`: clear the current active quantity, set the reference,
enable `q`. -/
def setActiveQuantity (s : PCState) (i : ℕ) : PCState :=
  let s1 := clearActiveQuantity s
  { s1 with
    activePointQuantity := some i
    quantities := setEnabledById s1.quantities i true }

/-- Observable events of `PointCloud::removeQuantity`, in program order:
`quantities.erase(name)`, `clearActiveQuantity()`, `delete q`. -/
inductive REvent where
  | erase : String → REvent
  | clearActive : REvent
  | destroy : ℕ → REvent
deriving DecidableEq, Repr

/-- `PointCloud::removeQuantity(name)` with its event trace: no-op if the
name is absent; otherwise save the pointer, erase the map entry, clear
activation if the erased quantity was active, then destroy the object. -/
def removeQuantityTr (s : PCState) (n : String) : PCState × List REvent :=
  match findQ s.quantities n with
  | none => (s, [])
  | some q =>
      let s1 := { s with quantities := s.quantities.filter (fun r => ¬ (r.qname = n)) }
      if s.activePointQuantity = some q.qid then
        (clearActiveQuantity s1, [REvent.erase n, REvent.clearActive, REvent.destroy q.qid])
      else
        (s1, [REvent.erase n, REvent.destroy q.qid])

def removeQuantity (s : PCState) (n : String) : PCState :=
  (removeQuantityTr s n).1

/-- `PointCloud::addQuantity(PointCloudQuantity*)` (the plain overload),
called with a freshly constructed quantity named `n` (fresh heap identity
`s.nextId`, `enabled = false` per the class default).  If a same-named
quantity is present, its `enabled` flag is remembered and it is removed;
the new quantity is stored; if the replaced quantity had been enabled the
new one is re-enabled. -/
def addQuantityPlain (s : PCState) (n : String) : PCState :=
  let q : Quantity := ⟨s.nextId, n, false, false⟩
  let wasEnabled :=
    match findQ s.quantities n with
    | none => false
    | some old => old.enabled
  let s1 :=
    match findQ s.quantities n with
    | none => s
    | some _ => removeQuantity s n
  let s2 := { s1 with quantities := s1.quantities ++ [q], nextId := s.nextId + 1 }
  if wasEnabled then
    { s2 with quantities := setEnabledById s2.quantities q.qid true }
  else s2

/-- `PointCloud::addQuantity(PointCloudQuantityThatDrawsPoints*)` (the
drawing overload): like the plain overload, but when re-enabling a
replaced enabled quantity it additionally makes the new quantity active. -/
def addQuantityDraws (s : PCState) (n : String) : PCState :=
  let q : Quantity := ⟨s.nextId, n, true, false⟩
  let wasEnabled :=
    match findQ s.quantities n with
    | none => false
    | some old => old.enabled
  let s1 :=
    match findQ s.quantities n with
    | none => s
    | some _ => removeQuantity s n
  let s2 := { s1 with quantities := s1.quantities ++ [q], nextId := s.nextId + 1 }
  if wasEnabled then
    setActiveQuantity { s2 with quantities := setEnabledById s2.quantities q.qid true } q.qid
  else s2

/-- `PointCloud::getQuantity(name, errorIfAbsent)`: the resulting state
(the map is not mutated; `operator[]` is only reached on a present key),
the returned pointer, and the list of error messages reported through
`polyscope::error`. -/
def getQuantity (s : PCState) (n : String) (errorIfAbsent : Bool) :
    PCState × Option Quantity × List String :=
  match findQ s.quantities n with
  | none =>
      (s, none, if errorIfAbsent then ["No quantity named " ++ n ++ " registered"] else [])
  | some q => (s, some q, [])

/-- The loop body of `PointCloud::removeAllQuantities()`, with fuel: while
the registry is nonempty, remove the first entry's name. -/
def removeAllAux : ℕ → PCState → PCState
  | 0, s => s
  | fuel + 1, s =>
      match s.quantities with
      | [] => s
      | q :: _ => removeAllAux fuel (removeQuantity s q.qname)

/-- `PointCloud::removeAllQuantities()` (each iteration removes at least
the one entry it names, so `quantities.length` steps of fuel reach the
empty registry). -/
def removeAllQuantities (s : PCState) : PCState :=
  removeAllAux s.quantities.length s

/-- Observable GPU/callback events of `PointCloud::draw()`, in program
order. -/
inductive Event where
  | setUniforms : Event
  | setProgramValues : ℕ → Event
  | drawPrimary : Event
  | quantityDraw : ℕ → Event
deriving DecidableEq, Repr

/-- `PointCloud::prepare()`: build the primary program — the default
sphere program when no quantity colors the points, otherwise the program
created by the active quantity. -/
def prepare (s : PCState) : PCState :=
  { s with
    program := some (match s.activePointQuantity with
      | none => Prog.defaultSphere
      | some i => Prog.fromQuantity i) }

/-- `PointCloud::draw()`: skip everything when disabled; lazily build the
program when absent; set uniforms (plus the active quantity's
`setProgramValues` hook); issue the primary draw call; then call `draw()`
on every quantity in the registry. -/
def draw (s : PCState) : PCState × List Event :=
  if s.enabled then
    let s1 := if s.program = none then prepare s else s
    let uniformEvents :=
      match s1.activePointQuantity with
      | none => [Event.setUniforms]
      | some i => [Event.setUniforms, Event.setProgramValues i]
    (s1, uniformEvents ++ [Event.drawPrimary]
          ++ s1.quantities.map (fun q => Event.quantityDraw q.qid))
  else
    (s, [])

/-- The quantity-registry calls of claim C4, acting on one point cloud:
both `addQuantity` overloads (with a freshly constructed quantity),
`setActiveQuantity` on a drawing quantity already registered in the map,
`removeQuantity`, and `removeAllQuantities`. -/
inductive Op where
  | addPlain : String → Op
  | addDraws : String → Op
  | setActive : ℕ → Op
  | removeOne : String → Op
  | removeAll : Op
deriving DecidableEq, Repr

/-- Interpret one call.  `setActive i` models
`setActiveQuantity(q)` for a quantity `q` that is registered in the map
and of the drawing variant (the only calls the claim quantifies over);
other identities are skipped. -/
def stepOp (s : PCState) : Op → PCState
  | Op.addPlain n => addQuantityPlain s n
  | Op.addDraws n => addQuantityDraws s n
  | Op.setActive i =>
      match s.quantities.find? (fun r => r.qid == i) with
      | some q => if q.drawsPoints then setActiveQuantity s i else s
      | none => s
  | Op.removeOne n => removeQuantity s n
  | Op.removeAll => removeAllQuantities s

def runOps (ops : List Op) (s : PCState) : PCState :=
  ops.foldl stepOp s

/-- `a` occurs strictly before `b` in the trace `tr` (first occurrences
compared). -/
def occursBefore (a b : REvent) (tr : List REvent) : Bool :=
  match tr.findIdx? (fun e => e == a), tr.findIdx? (fun e => e == b) with
  | some i, some j => decide (i < j)
  | _, _ => false

/-! Concrete point clouds used to instantiate the claims. -/

/-- A one-point cloud fresh from the constructor. -/
def pcEx : PCState := initPC [⟨0, 0, 0⟩] idAffine

/-- The cloud of P6: points `{(0,0,0), (2,0,0)}`, identity transform. -/
def pc8 : PCState := initPC [⟨0, 0, 0⟩, ⟨2, 0, 0⟩] idAffine

/-- The same two points, but translated by `(10, 0, 0)`. -/
def pc2 : PCState := initPC [⟨0, 0, 0⟩, ⟨2, 0, 0⟩] (translation 10 0 0)

/-- A cloud with an empty points vector. -/
def pcEmpty : PCState := initPC [] idAffine

/-- `pcEx` after `addQuantity` of a drawing quantity named
`"colorByGroup"` (it gets identity 0). -/
def pcDraws : PCState := addQuantityDraws pcEx "colorByGroup"

/-- `pcDraws` after `setActiveQuantity` on that quantity. -/
def pcActive : PCState := stepOp pcDraws (Op.setActive 0)

/-- The structural invariant maintained by the registry operations:
registry names are pairwise distinct (`std::map` keying), heap identities
are pairwise distinct and below the allocation counter (distinct live
objects), and a non-null active reference points at a registered,
element-drawing, enabled quantity. -/
def Inv (s : PCState) : Prop :=
  (s.quantities.map Quantity.qname).Nodup ∧
  (s.quantities.map Quantity.qid).Nodup ∧
  (∀ r ∈ s.quantities, r.qid < s.nextId) ∧
  (∀ i, s.activePointQuantity = some i →
    ∃ r ∈ s.quantities, r.qid = i ∧ r.drawsPoints = true ∧ r.enabled = true)

/-- C1, counterexample: on a cloud with no quantity named
`"colorByGroup"`, `addQuantity` of a drawing quantity by that name stores
it in the registry but leaves it with `enabled = false` and does NOT make
it the active drawing quantity; adding a second drawing quantity
`"colorByHeight"` likewise leaves the active reference null.  This
refutes the claim that a freshly added element-drawing quantity becomes
active with `enabled = true`. -/
theorem C1_counterexample :
    findQ pcDraws.quantities "colorByGroup" =
      some ⟨0, "colorByGroup", true, false⟩ ∧
    pcDraws.activePointQuantity = none ∧
    (addQuantityDraws pcDraws "colorByHeight").activePointQuantity = none ∧
    findQ (addQuantityDraws pcDraws "colorByHeight").quantities "colorByGroup" =
      some ⟨0, "colorByGroup", true, false⟩ := by
  refine ⟨rfl, rfl, rfl, rfl⟩

/-- C1, amended: when `addQuantity` (drawing overload) is called with a
quantity whose name is not yet registered, the quantity is appended to
the registry with `enabled = false`, and the active drawing quantity is
left unchanged; activation on insertion happens only when a same-named
previously-enabled quantity is replaced. -/
theorem C1_fresh_add_inactive (s : PCState) (n : String)
    (h : findQ s.quantities n = none) :
    addQuantityDraws s n =
      { s with
        quantities := s.quantities ++ [⟨s.nextId, n, true, false⟩]
        nextId := s.nextId + 1 } ∧
    (addQuantityDraws s n).activePointQuantity = s.activePointQuantity ∧
    findQ (addQuantityDraws s n).quantities n = some ⟨s.nextId, n, true, false⟩ := by
  have hmain : addQuantityDraws s n =
      { s with
        quantities := s.quantities ++ [⟨s.nextId, n, true, false⟩]
        nextId := s.nextId + 1 } := by
    simp [addQuantityDraws, h]
  refine ⟨hmain, by rw [hmain], ?_⟩
  rw [hmain]
  show findQ (s.quantities ++ [⟨s.nextId, n, true, false⟩]) n = _
  unfold findQ at h ⊢
  rw [List.find?_append, h]
  simp

/-- C1, witness for `C1_fresh_add_inactive` at the concrete cloud
`pcEx` and name `"colorByGroup"`. -/
theorem C1_witness :
    addQuantityDraws pcEx "colorByGroup" =
      { pcEx with
        quantities := pcEx.quantities ++ [⟨0, "colorByGroup", true, false⟩]
        nextId := 1 } ∧
    (addQuantityDraws pcEx "colorByGroup").activePointQuantity =
      pcEx.activePointQuantity ∧
    findQ (addQuantityDraws pcEx "colorByGroup").quantities "colorByGroup" =
      some ⟨0, "colorByGroup", true, false⟩ :=
  C1_fresh_add_inactive pcEx "colorByGroup" rfl

/-- C2: on the cloud `pc2` (points `(0,0,0)` and `(2,0,0)`, object
transform = translation by `(10,0,0)`) the code returns
`lengthScale() = 22`: it measures the per-point distances on the RAW
points against the center of the TRANSFORM-APPLIED bounding box
(`(11,0,0)`), whereas the claimed definition — distances measured on
transform-applied positions — gives `2`.  (`lengthScaleIs s v` states
square-root free that `lengthScale()` returns `v`.) -/
theorem C2_lengthScale_uses_raw_points :
    lengthScaleIs pc2 22 ∧ specLengthScaleIs pc2 2 ∧ (22 : ℚ) ≠ 2 := by
  refine ⟨⟨by norm_num, ?_⟩, ⟨by norm_num, ?_⟩, by norm_num⟩ <;>
  · simp only [maxLen2, specMaxLen2, bboxCenter, boundingBox, pc2, initPC, translation,
      applyAffine, coeV3, cmin, cmax, List.foldl_cons, List.foldl_nil, toERat, emin, emax,
      toRatOr0, subV, len2]
    norm_num

/-- C8: for points `{(0,0,0), (2,0,0)}` with identity transform,
`boundingBox()` returns `((0,0,0), (2,0,0))` and `lengthScale()` returns
`2` (center `(1,0,0)`, max distance 1, doubled). -/
theorem C8_bbox_and_lengthScale :
    boundingBox pc8 = (coeV3 ⟨0, 0, 0⟩, coeV3 ⟨2, 0, 0⟩) ∧ lengthScaleIs pc8 2 := by
  constructor
  · simp only [boundingBox, pc8, initPC, idAffine, applyAffine, coeV3, cmin, cmax,
      List.foldl_cons, List.foldl_nil, toERat, emin, emax]
    norm_num
  · refine ⟨by norm_num, ?_⟩
    simp only [maxLen2, bboxCenter, boundingBox, pc8, initPC, idAffine, applyAffine,
      coeV3, cmin, cmax, List.foldl_cons, List.foldl_nil, toERat, emin, emax,
      toRatOr0, subV, len2]
    norm_num

/-- C9: for an empty points vector, `boundingBox()` returns the fold
identities `min = (+inf,+inf,+inf)`, `max = (-inf,-inf,-inf)` — so max is
strictly below min in every component — and `lengthScale()` returns 0. -/
theorem C9_empty_cloud :
    boundingBox pcEmpty =
      (⟨ERat.pInf, ERat.pInf, ERat.pInf⟩, ⟨ERat.mInf, ERat.mInf, ERat.mInf⟩) ∧
    (elt (boundingBox pcEmpty).2.x (boundingBox pcEmpty).1.x ∧
     elt (boundingBox pcEmpty).2.y (boundingBox pcEmpty).1.y ∧
     elt (boundingBox pcEmpty).2.z (boundingBox pcEmpty).1.z) ∧
    lengthScaleIs pcEmpty 0 := by
  refine ⟨rfl, ⟨?_, ?_, ?_⟩, ⟨le_refl 0, ?_⟩⟩ <;> simp [boundingBox, pcEmpty, initPC, elt, maxLen2]

/-! Shared helper lemmas about the registry representation. -/

lemma findQ_eq_none_iff {l : List Quantity} {n : String} :
    findQ l n = none ↔ ∀ r ∈ l, r.qname ≠ n := by
  simp [findQ, List.find?_eq_none]

lemma mem_setEnabledById {l : List Quantity} {i : ℕ} {b : Bool} {r : Quantity}
    (hr : r ∈ setEnabledById l i b) :
    ∃ r0 ∈ l, r.qname = r0.qname ∧ r.qid = r0.qid ∧ r.drawsPoints = r0.drawsPoints := by
  rcases List.mem_map.1 hr with ⟨r0, hr0, hEq⟩
  refine ⟨r0, hr0, ?_⟩
  by_cases h : r0.qid = i <;> simp [h] at hEq <;> simp [← hEq, h]

/-- C6: `getQuantity(name, errorIfAbsent)` returns the stored quantity
when present (no error, state unchanged); when absent it returns null and
reports the NotFound error through `polyscope::error` iff `errorIfAbsent`
is true, again leaving the state unchanged. -/
theorem C6_getQuantity_spec (s : PCState) (n : String) (errorIfAbsent : Bool) :
    (∀ q, findQ s.quantities n = some q →
      getQuantity s n errorIfAbsent = (s, some q, [])) ∧
    (findQ s.quantities n = none →
      getQuantity s n errorIfAbsent =
        (s, none,
          if errorIfAbsent then ["No quantity named " ++ n ++ " registered"] else [])) := by
  constructor
  · intro q hq
    simp [getQuantity, hq]
  · intro h
    simp [getQuantity, h]

/-- C6, witness: `getQuantity` on `pcDraws` for a present name, and for a
missing name with both values of `errorIfAbsent`. -/
theorem C6_witness :
    getQuantity pcDraws "colorByGroup" true =
      (pcDraws, some ⟨0, "colorByGroup", true, false⟩, []) ∧
    getQuantity pcDraws "missing" false = (pcDraws, none, []) ∧
    getQuantity pcDraws "missing" true =
      (pcDraws, none, ["No quantity named missing registered"]) :=
  ⟨(C6_getQuantity_spec pcDraws "colorByGroup" true).1 _ rfl,
   (C6_getQuantity_spec pcDraws "missing" false).2 rfl,
   (C6_getQuantity_spec pcDraws "missing" true).2 rfl⟩

/-- C10: `clearActiveQuantity()` destroys the primary program
unconditionally — also when no active drawing quantity exists — and nulls
the active reference; every other field (points, pick program, the
structure's enabled flag, color, radius, transform, id counter) is left
unchanged, and the registry changes only by the formerly active
quantity's `enabled` flag being written to false. -/
theorem C10_clearActiveQuantity_frame (s : PCState) :
    (clearActiveQuantity s).program = none ∧
    (clearActiveQuantity s).activePointQuantity = none ∧
    (clearActiveQuantity s).points = s.points ∧
    (clearActiveQuantity s).pickProgram = s.pickProgram ∧
    (clearActiveQuantity s).enabled = s.enabled ∧
    (clearActiveQuantity s).pointColor = s.pointColor ∧
    (clearActiveQuantity s).pointRadius = s.pointRadius ∧
    (clearActiveQuantity s).objectTransform = s.objectTransform ∧
    (clearActiveQuantity s).nextId = s.nextId ∧
    (s.activePointQuantity = none → (clearActiveQuantity s).quantities = s.quantities) ∧
    (∀ i, s.activePointQuantity = some i →
      (clearActiveQuantity s).quantities = setEnabledById s.quantities i false) := by
  cases h : s.activePointQuantity <;>
    simp [clearActiveQuantity, deleteProgram, h]

/-- C10, witness: `C10_clearActiveQuantity_frame` applied at `pcDraws`
(no active quantity: program destroyed, registry untouched) and at
`pcActive` (active quantity 0: its enabled flag is cleared). -/
theorem C10_witness :
    (clearActiveQuantity pcDraws).program = none ∧
    (clearActiveQuantity pcDraws).quantities = pcDraws.quantities ∧
    (clearActiveQuantity pcActive).quantities =
      setEnabledById pcActive.quantities 0 false :=
  ⟨(C10_clearActiveQuantity_frame pcDraws).1,
   (C10_clearActiveQuantity_frame pcDraws).2.2.2.2.2.2.2.2.2.1 rfl,
   (C10_clearActiveQuantity_frame pcActive).2.2.2.2.2.2.2.2.2.2 0 rfl⟩

/-- C3, counterexample: removing the active quantity `"colorByGroup"`
from `pcActive` produces the event trace
`[erase, clearActive, destroy]` — the map entry is erased BEFORE
activation is cleared, refuting the claim that clearing precedes the
erasure of the mapping entry (it only precedes destruction). -/
theorem C3_counterexample :
    (removeQuantityTr pcActive "colorByGroup").2 =
      [REvent.erase "colorByGroup", REvent.clearActive, REvent.destroy 0] ∧
    occursBefore REvent.clearActive (REvent.erase "colorByGroup")
      (removeQuantityTr pcActive "colorByGroup").2 = false ∧
    occursBefore (REvent.erase "colorByGroup") REvent.clearActive
      (removeQuantityTr pcActive "colorByGroup").2 = true ∧
    occursBefore REvent.clearActive (REvent.destroy 0)
      (removeQuantityTr pcActive "colorByGroup").2 = true := by
  refine ⟨rfl, by decide, by decide, by decide⟩

/-- C3, amended: `removeQuantity(name)` is a no-op when no quantity of
that name exists; when the named quantity is the current active drawing
quantity it erases the mapping entry FIRST, then clears activation
(nulling the active reference and invalidating the primary program), and
destroys the quantity object last — so clearing precedes destruction but
follows erasure. -/
theorem C3_remove_order (s : PCState) (n : String) :
    (findQ s.quantities n = none → removeQuantityTr s n = (s, [])) ∧
    (∀ q, findQ s.quantities n = some q → s.activePointQuantity = some q.qid →
      (removeQuantityTr s n).2 =
        [REvent.erase n, REvent.clearActive, REvent.destroy q.qid] ∧
      (removeQuantity s n).activePointQuantity = none ∧
      (removeQuantity s n).program = none ∧
      findQ (removeQuantity s n).quantities n = none) := by
  constructor
  · intro h
    simp [removeQuantityTr, h]
  · intro q hq hact
    have hstate : removeQuantity s n =
        clearActiveQuantity
          { s with quantities := s.quantities.filter (fun r => ¬ (r.qname = n)) } := by
      simp [removeQuantity, removeQuantityTr, hq, hact]
    refine ⟨by simp [removeQuantityTr, hq, hact], ?_, ?_, ?_⟩
    · rw [hstate]
      simp [clearActiveQuantity, deleteProgram, hact]
    · rw [hstate]
      cases hA : ({ s with quantities := s.quantities.filter (fun r => ¬ (r.qname = n)) } :
          PCState).activePointQuantity <;>
        simp [clearActiveQuantity, deleteProgram, hA]
    · rw [hstate]
      simp only [clearActiveQuantity, deleteProgram, hact]
      rw [findQ_eq_none_iff]
      intro r hr
      rcases mem_setEnabledById hr with ⟨r0, hr0, hname, -, -⟩
      rw [hname]
      have := (List.mem_filter.1 hr0).2
      simpa using this

/-- C3, witness: `C3_remove_order` at `pcActive` with the registered
active name `"colorByGroup"`, and at `pcEx` with an absent name. -/
theorem C3_witness :
    removeQuantityTr pcEx "missing" = (pcEx, []) ∧
    ((removeQuantityTr pcActive "colorByGroup").2 =
        [REvent.erase "colorByGroup", REvent.clearActive, REvent.destroy 0] ∧
      (removeQuantity pcActive "colorByGroup").activePointQuantity = none ∧
      (removeQuantity pcActive "colorByGroup").program = none ∧
      findQ (removeQuantity pcActive "colorByGroup").quantities "colorByGroup" = none) :=
  ⟨(C3_remove_order pcEx "missing").1 rfl,
   (C3_remove_order pcActive "colorByGroup").2 ⟨0, "colorByGroup", true, true⟩ rfl rfl⟩

/-- C7: `draw()` on a disabled structure returns immediately, with no GPU
events and no quantity callbacks.  On an enabled structure it lazily
builds the primary program when absent — the default sphere program when
no active drawing quantity exists, else the active quantity's
`createProgram` result — and leaves an existing program untouched; the
event trace is some uniform setup, then EXACTLY ONE primary draw call,
then the `draw()` hook of every quantity in the registry. -/
theorem C7_draw_spec (s : PCState) :
    (s.enabled = false → draw s = (s, [])) ∧
    (s.enabled = true →
      (s.program = none →
        (draw s).1.program = some (match s.activePointQuantity with
          | none => Prog.defaultSphere
          | some i => Prog.fromQuantity i)) ∧
      (∀ p, s.program = some p → (draw s).1.program = some p) ∧
      ∃ u, (draw s).2 =
          u ++ [Event.drawPrimary] ++ s.quantities.map (fun q => Event.quantityDraw q.qid) ∧
        Event.drawPrimary ∉ u ∧ (∀ i, Event.quantityDraw i ∉ u)) := by
  constructor
  · intro h
    simp [draw, h]
  · intro h
    refine ⟨?_, ?_, ?_⟩
    · intro hp
      simp [draw, h, hp, prepare]
    · intro p hp
      simp [draw, h, hp]
    · cases hp : s.program <;> cases ha : s.activePointQuantity
      · exact ⟨[Event.setUniforms], by simp [draw, h, hp, prepare, ha]⟩
      · rename_i i
        exact ⟨[Event.setUniforms, Event.setProgramValues i],
          by simp [draw, h, hp, prepare, ha]⟩
      · exact ⟨[Event.setUniforms], by simp [draw, h, hp, prepare, ha]⟩
      · rename_i p i
        exact ⟨[Event.setUniforms, Event.setProgramValues i],
          by simp [draw, h, hp, prepare, ha]⟩

/-- C7, witness: `C7_draw_spec` at the enabled cloud `pcActive`
(program absent, active quantity 0) and at the disabled cloud obtained
from it. -/
theorem C7_witness :
    ((pcActive.program = none →
        (draw pcActive).1.program = some (match pcActive.activePointQuantity with
          | none => Prog.defaultSphere
          | some i => Prog.fromQuantity i)) ∧
      (∀ p, pcActive.program = some p → (draw pcActive).1.program = some p) ∧
      ∃ u, (draw pcActive).2 =
          u ++ [Event.drawPrimary]
            ++ pcActive.quantities.map (fun q => Event.quantityDraw q.qid) ∧
        Event.drawPrimary ∉ u ∧ (∀ i, Event.quantityDraw i ∉ u)) ∧
    draw { pcActive with enabled := false } = ({ pcActive with enabled := false }, []) :=
  ⟨(C7_draw_spec pcActive).2 rfl,
   (C7_draw_spec { pcActive with enabled := false }).1 rfl⟩

/-- After `removeQuantity(n)` no registry entry is named `n` (when the
name was absent this is the no-op case; when present, the erase removes
every entry keyed by it). -/
lemma removeQuantity_names (s : PCState) (n : String) :
    ∀ r ∈ (removeQuantity s n).quantities, r.qname ≠ n := by
  intro r hr
  cases hq : findQ s.quantities n with
  | none =>
      simp only [removeQuantity, removeQuantityTr, hq] at hr
      exact findQ_eq_none_iff.1 hq r hr
  | some q =>
      simp only [removeQuantity, removeQuantityTr, hq] at hr
      by_cases hact : s.activePointQuantity = some q.qid
      · simp only [hact, if_true, clearActiveQuantity, deleteProgram] at hr
        rcases mem_setEnabledById hr with ⟨r0, hr0, hname, -, -⟩
        rw [hname]
        have := (List.mem_filter.1 hr0).2
        simpa using this
      · simp only [hact, if_false] at hr
        have := (List.mem_filter.1 hr).2
        simpa using this

/-- Appending a quantity whose name is fresh for `l` makes it the hit of
`findQ` on that name. -/
lemma findQ_append_new {l : List Quantity} {q : Quantity}
    (h : ∀ r ∈ l, r.qname ≠ q.qname) : findQ (l ++ [q]) q.qname = some q := by
  unfold findQ
  rw [List.find?_append]
  have hnone : l.find? (fun r => r.qname == q.qname) = none :=
    List.find?_eq_none.2 (by simpa using h)
  simp [hnone]


lemma setEnabledById_append (l1 l2 : List Quantity) (i : ℕ) (b : Bool) :
    setEnabledById (l1 ++ l2) i b = setEnabledById l1 i b ++ setEnabledById l2 i b := by
  simp [setEnabledById]

lemma names_ne_setEnabledById {l : List Quantity} {n : String}
    (h : ∀ r ∈ l, r.qname ≠ n) (i : ℕ) (b : Bool) :
    ∀ r ∈ setEnabledById l i b, r.qname ≠ n := by
  intro r hr
  rcases mem_setEnabledById hr with ⟨r0, hr0, hname, -, -⟩
  rw [hname]
  exact h r0 hr0

/-- Pushing an enabled-flag write through a registry that ends in one
freshly appended quantity. -/
lemma setEnabledById_snoc (l : List Quantity) (i : ℕ) (b : Bool) (e : Quantity) :
    setEnabledById (l ++ [e]) i b =
      setEnabledById l i b ++ [if e.qid = i then { e with enabled := b } else e] := by
  simp [setEnabledById]

/-- `setActiveQuantity` on a registry of the form `front ++ [e]` where
`e` is the (drawing) quantity being activated and nothing in `front` is
named `n`: the result is again of that form, with `e` enabled. -/
lemma setActive_shape (t : PCState) (n : String) (front0 : List Quantity) (e : Quantity)
    (ht : t.quantities = front0 ++ [e]) (hfront : ∀ r ∈ front0, r.qname ≠ n)
    (hname : e.qname = n) (hdraws : e.drawsPoints = true) :
    ∃ front, (setActiveQuantity t e.qid).quantities = front ++ [⟨e.qid, n, true, true⟩] ∧
      ∀ r ∈ front, r.qname ≠ n := by
  have hq : (setActiveQuantity t e.qid).quantities =
      setEnabledById (clearActiveQuantity t).quantities e.qid true := rfl
  cases hA : t.activePointQuantity with
  | none =>
      have hc : (clearActiveQuantity t).quantities = t.quantities := by
        simp [clearActiveQuantity, deleteProgram, hA]
      refine ⟨setEnabledById front0 e.qid true, ?_, names_ne_setEnabledById hfront _ _⟩
      rw [hq, hc, ht, setEnabledById_snoc]
      cases e with
      | mk eid ename edraws een =>
          simp only at hname hdraws
          subst hname
          subst hdraws
          simp
  | some j =>
      have hc : (clearActiveQuantity t).quantities = setEnabledById t.quantities j false := by
        simp [clearActiveQuantity, deleteProgram, hA]
      refine ⟨setEnabledById (setEnabledById front0 j false) e.qid true, ?_,
        names_ne_setEnabledById (names_ne_setEnabledById hfront _ _) _ _⟩
      rw [hq, hc, ht, setEnabledById_snoc, setEnabledById_snoc]
      cases e with
      | mk eid ename edraws een =>
          simp only at hname hdraws
          subst hname
          subst hdraws
          by_cases hji : eid = j <;> simp [hji]

/-- C5: replacing an enabled quantity named `n` (by calling either
`addQuantity` overload with a fresh same-named quantity) destroys the old
entry and leaves exactly one entry named `n` in the registry — the new
object, with `enabled = true`; and when the replaced quantity was the
active drawing quantity, the new quantity becomes active if and only if
it was inserted through the element-drawing overload (the plain overload
leaves the active reference null). -/
theorem C5_replace_preserves_enablement (s : PCState) (n : String) (q : Quantity)
    (hq : findQ s.quantities n = some q) (hen : q.enabled = true) :
    (findQ (addQuantityPlain s n).quantities n = some ⟨s.nextId, n, false, true⟩ ∧
     (∀ r ∈ (addQuantityPlain s n).quantities, r.qname = n →
        r = ⟨s.nextId, n, false, true⟩) ∧
     (s.activePointQuantity = some q.qid →
        (addQuantityPlain s n).activePointQuantity = none)) ∧
    (findQ (addQuantityDraws s n).quantities n = some ⟨s.nextId, n, true, true⟩ ∧
     (∀ r ∈ (addQuantityDraws s n).quantities, r.qname = n →
        r = ⟨s.nextId, n, true, true⟩) ∧
     (s.activePointQuantity = some q.qid →
        (addQuantityDraws s n).activePointQuantity = some s.nextId)) := by
  have hnames := removeQuantity_names s n
  have hquantsP : (addQuantityPlain s n).quantities =
      setEnabledById (removeQuantity s n).quantities s.nextId true
        ++ [⟨s.nextId, n, false, true⟩] := by
    simp [addQuantityPlain, hq, hen, setEnabledById_snoc]
  have hothersP := names_ne_setEnabledById hnames s.nextId true
  have hshapeD : ∃ front,
      (addQuantityDraws s n).quantities = front ++ [⟨s.nextId, n, true, true⟩] ∧
      ∀ r ∈ front, r.qname ≠ n := by
    have hD : addQuantityDraws s n =
        setActiveQuantity
          { removeQuantity s n with
              quantities :=
                setEnabledById ((removeQuantity s n).quantities
                  ++ [⟨s.nextId, n, true, false⟩]) s.nextId true
              nextId := s.nextId + 1 }
          s.nextId := by
      simp [addQuantityDraws, hq, hen]
    rw [hD]
    refine setActive_shape _ n
      (setEnabledById (removeQuantity s n).quantities s.nextId true)
      ⟨s.nextId, n, true, true⟩ ?_
      (names_ne_setEnabledById hnames s.nextId true) rfl rfl
    show setEnabledById ((removeQuantity s n).quantities
        ++ [⟨s.nextId, n, true, false⟩]) s.nextId true = _
    rw [setEnabledById_snoc]
    simp
  refine ⟨⟨?_, ?_, ?_⟩, ?_⟩
  · rw [hquantsP]
    exact findQ_append_new hothersP
  · intro r hr hrname
    rw [hquantsP] at hr
    rcases List.mem_append.1 hr with hr | hr
    · exact absurd hrname (hothersP r hr)
    · simpa using hr
  · intro hact
    have hremActive : (removeQuantity s n).activePointQuantity = none := by
      simp only [removeQuantity, removeQuantityTr, hq, hact, if_true]
      rcases hA : (({ s with
          quantities := s.quantities.filter (fun r => ¬ (r.qname = n)) } :
            PCState)).activePointQuantity with - | i <;>
        simp [clearActiveQuantity, deleteProgram, hA]
    simp [addQuantityPlain, hq, hen, hremActive]
  · rcases hshapeD with ⟨front, hfr, hfrnames⟩
    refine ⟨?_, ?_, ?_⟩
    · rw [hfr]
      exact findQ_append_new hfrnames
    · intro r hr hrname
      rw [hfr] at hr
      rcases List.mem_append.1 hr with hr | hr
      · exact absurd hrname (hfrnames r hr)
      · simpa using hr
    · intro hact
      simp [addQuantityDraws, hq, hen, setActiveQuantity]

/-- C5, witness: `C5_replace_preserves_enablement` at `pcActive`, whose
quantity `"colorByGroup"` (identity 0) is enabled and active; the next
fresh identity is 1. -/
theorem C5_witness :
    findQ (addQuantityPlain pcActive "colorByGroup").quantities "colorByGroup" =
      some ⟨1, "colorByGroup", false, true⟩ ∧
    (addQuantityPlain pcActive "colorByGroup").activePointQuantity = none ∧
    findQ (addQuantityDraws pcActive "colorByGroup").quantities "colorByGroup" =
      some ⟨1, "colorByGroup", true, true⟩ ∧
    (addQuantityDraws pcActive "colorByGroup").activePointQuantity = some 1 :=
  ⟨(C5_replace_preserves_enablement pcActive "colorByGroup"
      ⟨0, "colorByGroup", true, true⟩ rfl rfl).1.1,
   (C5_replace_preserves_enablement pcActive "colorByGroup"
      ⟨0, "colorByGroup", true, true⟩ rfl rfl).1.2.2 rfl,
   (C5_replace_preserves_enablement pcActive "colorByGroup"
      ⟨0, "colorByGroup", true, true⟩ rfl rfl).2.1,
   (C5_replace_preserves_enablement pcActive "colorByGroup"
      ⟨0, "colorByGroup", true, true⟩ rfl rfl).2.2.2 rfl⟩

/-! Helper lemmas for the C4 invariant: the registry operations preserve
names, identities, the allocation bound, and the activation invariant. -/

lemma names_setEnabledById (l : List Quantity) (i : ℕ) (b : Bool) :
    (setEnabledById l i b).map Quantity.qname = l.map Quantity.qname := by
  simp only [setEnabledById, List.map_map]
  apply List.map_congr_left
  intro a _
  by_cases h : a.qid = i <;> simp [h]

lemma qids_setEnabledById (l : List Quantity) (i : ℕ) (b : Bool) :
    (setEnabledById l i b).map Quantity.qid = l.map Quantity.qid := by
  simp only [setEnabledById, List.map_map]
  apply List.map_congr_left
  intro a _
  by_cases h : a.qid = i <;> simp [h]

lemma findQ_some {l : List Quantity} {n : String} {q : Quantity}
    (h : findQ l n = some q) : q ∈ l ∧ q.qname = n := by
  refine ⟨List.mem_of_find?_eq_some h, ?_⟩
  have := List.find?_some h
  simpa using this

lemma clearActive_active (s : PCState) :
    (clearActiveQuantity s).activePointQuantity = none := by
  cases h : s.activePointQuantity <;>
    simp [clearActiveQuantity, deleteProgram, h]

lemma clearActive_nextId (s : PCState) :
    (clearActiveQuantity s).nextId = s.nextId := by
  cases h : s.activePointQuantity <;>
    simp [clearActiveQuantity, deleteProgram, h]

lemma clearActive_names (s : PCState) :
    (clearActiveQuantity s).quantities.map Quantity.qname =
      s.quantities.map Quantity.qname := by
  cases h : s.activePointQuantity <;>
    simp [clearActiveQuantity, deleteProgram, h, names_setEnabledById]

lemma clearActive_qids (s : PCState) :
    (clearActiveQuantity s).quantities.map Quantity.qid =
      s.quantities.map Quantity.qid := by
  cases h : s.activePointQuantity <;>
    simp [clearActiveQuantity, deleteProgram, h, qids_setEnabledById]

lemma mem_clearActive_src {s : PCState} {r : Quantity}
    (hr : r ∈ (clearActiveQuantity s).quantities) :
    ∃ r0 ∈ s.quantities, r.qname = r0.qname ∧ r.qid = r0.qid ∧
      r.drawsPoints = r0.drawsPoints := by
  cases h : s.activePointQuantity with
  | none =>
      simp only [clearActiveQuantity, deleteProgram, h] at hr
      exact ⟨r, hr, rfl, rfl, rfl⟩
  | some j =>
      simp only [clearActiveQuantity, deleteProgram, h] at hr
      exact mem_setEnabledById hr

lemma clearActive_mem {s : PCState} {r : Quantity} (hr : r ∈ s.quantities) :
    ∃ r1 ∈ (clearActiveQuantity s).quantities,
      r1.qid = r.qid ∧ r1.qname = r.qname ∧ r1.drawsPoints = r.drawsPoints := by
  cases h : s.activePointQuantity with
  | none =>
      refine ⟨r, ?_, rfl, rfl, rfl⟩
      simp [clearActiveQuantity, deleteProgram, h]
      exact hr
  | some j =>
      refine ⟨if r.qid = j then { r with enabled := false } else r, ?_, ?_, ?_, ?_⟩
      · simp only [clearActiveQuantity, deleteProgram, h, setEnabledById]
        exact List.mem_map_of_mem _ hr
      · by_cases hq : r.qid = j <;> simp [hq]
      · by_cases hq : r.qid = j <;> simp [hq]
      · by_cases hq : r.qid = j <;> simp [hq]

lemma removeQuantity_nextId (s : PCState) (n : String) :
    (removeQuantity s n).nextId = s.nextId := by
  cases hq : findQ s.quantities n with
  | none => simp [removeQuantity, removeQuantityTr, hq]
  | some q =>
      by_cases hact : s.activePointQuantity = some q.qid <;>
        simp [removeQuantity, removeQuantityTr, hq, hact, clearActive_nextId]

lemma mem_removeQuantity_src {s : PCState} {n : String} {r : Quantity}
    (hr : r ∈ (removeQuantity s n).quantities) :
    ∃ r0 ∈ s.quantities, r.qname = r0.qname ∧ r.qid = r0.qid ∧
      r.drawsPoints = r0.drawsPoints := by
  cases hq : findQ s.quantities n with
  | none =>
      simp only [removeQuantity, removeQuantityTr, hq] at hr
      exact ⟨r, hr, rfl, rfl, rfl⟩
  | some q =>
      simp only [removeQuantity, removeQuantityTr, hq] at hr
      by_cases hact : s.activePointQuantity = some q.qid
      · simp only [hact, if_true] at hr
        rcases mem_clearActive_src hr with ⟨r1, hr1, e1, e2, e3⟩
        have := List.mem_of_mem_filter hr1
        exact ⟨r1, this, e1, e2, e3⟩
      · simp only [hact, if_false] at hr
        exact ⟨r, List.mem_of_mem_filter hr, rfl, rfl, rfl⟩

lemma clearActive_inv {s : PCState}
    (hnm : (s.quantities.map Quantity.qname).Nodup)
    (hid : (s.quantities.map Quantity.qid).Nodup)
    (hfr : ∀ r ∈ s.quantities, r.qid < s.nextId) :
    Inv (clearActiveQuantity s) := by
  refine ⟨?_, ?_, ?_, ?_⟩
  · rw [clearActive_names]
    exact hnm
  · rw [clearActive_qids]
    exact hid
  · intro r hr
    rcases mem_clearActive_src hr with ⟨r0, hr0, -, e2, -⟩
    rw [clearActive_nextId, e2]
    exact hfr r0 hr0
  · intro i hi
    rw [clearActive_active] at hi
    exact absurd hi (by simp)

lemma setActive_inv {s : PCState} {i : ℕ} (h : Inv s)
    (hw : ∃ r ∈ s.quantities, r.qid = i ∧ r.drawsPoints = true) :
    Inv (setActiveQuantity s i) := by
  obtain ⟨hnm, hid, hfr, -⟩ := h
  have hquants : (setActiveQuantity s i).quantities =
      setEnabledById (clearActiveQuantity s).quantities i true := rfl
  have hnext : (setActiveQuantity s i).nextId = s.nextId := by
    show (clearActiveQuantity s).nextId = s.nextId
    exact clearActive_nextId s
  refine ⟨?_, ?_, ?_, ?_⟩
  · rw [hquants, names_setEnabledById, clearActive_names]
    exact hnm
  · rw [hquants, qids_setEnabledById, clearActive_qids]
    exact hid
  · intro r hr
    rw [hquants] at hr
    rcases mem_setEnabledById hr with ⟨r1, hr1, -, e2, -⟩
    rcases mem_clearActive_src hr1 with ⟨r0, hr0, -, e5, -⟩
    rw [hnext, e2, e5]
    exact hfr r0 hr0
  · intro j hj
    have hj2 : j = i := by
      have : (setActiveQuantity s i).activePointQuantity = some i := rfl
      rw [this] at hj
      exact (Option.some_inj.1 hj).symm
    subst hj2
    rcases hw with ⟨r, hr, hrid, hrdr⟩
    rcases clearActive_mem (s := s) hr with ⟨r1, hr1, e1, -, e3⟩
    have hcond : r1.qid = j := by rw [e1, hrid]
    refine ⟨{ r1 with enabled := true }, ?_, ?_, ?_, rfl⟩
    · rw [hquants]
      show _ ∈ List.map (fun r => if r.qid = j then { r with enabled := true } else r)
        (clearActiveQuantity s).quantities
      exact List.mem_map.2 ⟨r1, hr1, by rw [if_pos hcond]⟩
    · show r1.qid = j
      exact hcond
    · show r1.drawsPoints = true
      rw [e3, hrdr]

lemma removeQuantity_inv {s : PCState} (n : String) (h : Inv s) :
    Inv (removeQuantity s n) := by
  obtain ⟨hnm, hid, hfr, hac⟩ := h
  cases hq : findQ s.quantities n with
  | none =>
      have heq : removeQuantity s n = s := by
        simp [removeQuantity, removeQuantityTr, hq]
      rw [heq]
      exact ⟨hnm, hid, hfr, hac⟩
  | some q =>
      have hsub : (s.quantities.filter (fun r => ¬ (r.qname = n))).Sublist s.quantities :=
        List.filter_sublist s.quantities
      by_cases hact : s.activePointQuantity = some q.qid
      · have heq : removeQuantity s n =
            clearActiveQuantity
              { s with quantities := s.quantities.filter (fun r => ¬ (r.qname = n)) } := by
          simp [removeQuantity, removeQuantityTr, hq, hact]
        rw [heq]
        exact clearActive_inv
          ((hsub.map Quantity.qname).nodup hnm)
          ((hsub.map Quantity.qid).nodup hid)
          (fun r hr => hfr r (List.mem_of_mem_filter hr))
      · have heq : removeQuantity s n =
            { s with quantities := s.quantities.filter (fun r => ¬ (r.qname = n)) } := by
          simp [removeQuantity, removeQuantityTr, hq, hact]
        rw [heq]
        refine ⟨?_, ?_, ?_, ?_⟩
        · exact (hsub.map Quantity.qname).nodup hnm
        · exact (hsub.map Quantity.qid).nodup hid
        · intro r hr
          exact hfr r (List.mem_of_mem_filter hr)
        · intro i hi
          simp only at hi
          rcases hac i hi with ⟨r, hrmem, hrid, hrdr, hren⟩
          by_cases hrn : r.qname = n
          · exfalso
            rcases findQ_some hq with ⟨hqmem, hqn⟩
            have hrq : r = q :=
              List.inj_on_of_nodup_map hnm hrmem hqmem (by rw [hrn, hqn])
            apply hact
            rw [hi, ← hrq, hrid]
          · exact ⟨r, List.mem_filter.2 ⟨hrmem, by simpa using hrn⟩, hrid, hrdr, hren⟩

/-- Storing a freshly constructed quantity (identity = the counter) under a
name absent from the registry preserves the invariant. -/
lemma append_fresh_inv (t : PCState) (n : String) (d en : Bool)
    (h : Inv t) (hnames : ∀ r ∈ t.quantities, r.qname ≠ n) :
    Inv { t with quantities := t.quantities ++ [⟨t.nextId, n, d, en⟩],
                 nextId := t.nextId + 1 } := by
  obtain ⟨hnm, hid, hfr, hac⟩ := h
  refine ⟨?_, ?_, ?_, ?_⟩
  · show ((t.quantities ++ [(⟨t.nextId, n, d, en⟩ : Quantity)]).map Quantity.qname).Nodup
    rw [List.map_append, List.nodup_append]
    refine ⟨hnm, by simp, ?_⟩
    intro a ha hb
    simp only [List.map_cons, List.map_nil, List.mem_singleton] at hb
    subst hb
    rcases List.mem_map.1 ha with ⟨r, hr, hrn⟩
    exact hnames r hr hrn
  · show ((t.quantities ++ [(⟨t.nextId, n, d, en⟩ : Quantity)]).map Quantity.qid).Nodup
    rw [List.map_append, List.nodup_append]
    refine ⟨hid, by simp, ?_⟩
    intro a ha hb
    simp only [List.map_cons, List.map_nil, List.mem_singleton] at hb
    subst hb
    rcases List.mem_map.1 ha with ⟨r, hr, hrn⟩
    exact absurd (hrn ▸ hfr r hr) (lt_irrefl _)
  · intro r hr
    rcases List.mem_append.1 hr with hr | hr
    · exact Nat.lt_succ_of_lt (hfr r hr)
    · simp only [List.mem_singleton] at hr
      subst hr
      exact Nat.lt_succ_self _
  · intro i hi
    simp only at hi
    rcases hac i hi with ⟨r, hrmem, hrid, hrdr, hren⟩
    exact ⟨r, List.mem_append.2 (Or.inl hrmem), hrid, hrdr, hren⟩

/-- Writing `enabled := true` through any identity preserves the
invariant (the active quantity stays enabled). -/
lemma enable_inv (t : PCState) (i : ℕ) (h : Inv t) :
    Inv { t with quantities := setEnabledById t.quantities i true } := by
  obtain ⟨hnm, hid, hfr, hac⟩ := h
  refine ⟨?_, ?_, ?_, ?_⟩
  · show ((setEnabledById t.quantities i true).map Quantity.qname).Nodup
    rw [names_setEnabledById]
    exact hnm
  · show ((setEnabledById t.quantities i true).map Quantity.qid).Nodup
    rw [qids_setEnabledById]
    exact hid
  · intro r hr
    rcases mem_setEnabledById hr with ⟨r0, hr0, -, e2, -⟩
    show r.qid < t.nextId
    rw [e2]
    exact hfr r0 hr0
  · intro j hj
    simp only at hj
    rcases hac j hj with ⟨r, hrmem, hrid, hrdr, hren⟩
    refine ⟨if r.qid = i then { r with enabled := true } else r, ?_, ?_, ?_, ?_⟩
    · show _ ∈ List.map (fun r => if r.qid = i then { r with enabled := true } else r)
        t.quantities
      exact List.mem_map_of_mem _ hrmem
    · by_cases hc : r.qid = i
      · rw [if_pos hc]
        exact hrid
      · rw [if_neg hc]
        exact hrid
    · by_cases hc : r.qid = i <;> simp [hc, hrdr]
    · by_cases hc : r.qid = i <;> simp [hc, hren]

lemma addPlain_inv (s : PCState) (n : String) (h : Inv s) :
    Inv (addQuantityPlain s n) := by
  cases hq : findQ s.quantities n with
  | none =>
      have heq : addQuantityPlain s n =
          { s with quantities := s.quantities ++ [⟨s.nextId, n, false, false⟩],
                   nextId := s.nextId + 1 } := by
        simp [addQuantityPlain, hq]
      rw [heq]
      exact append_fresh_inv s n false false h (findQ_eq_none_iff.1 hq)
  | some q =>
      have hrem := removeQuantity_inv n h
      have hremNames := removeQuantity_names s n
      have hremNext := removeQuantity_nextId s n
      have happ := append_fresh_inv (removeQuantity s n) n false false hrem hremNames
      rw [hremNext] at happ
      cases hen : q.enabled with
      | false =>
          have heq : addQuantityPlain s n =
              { removeQuantity s n with
                  quantities := (removeQuantity s n).quantities ++ [⟨s.nextId, n, false, false⟩]
                  nextId := s.nextId + 1 } := by
            simp [addQuantityPlain, hq, hen]
          rw [heq]
          exact happ
      | true =>
          have heq : addQuantityPlain s n =
              { removeQuantity s n with
                  quantities := setEnabledById
                    ((removeQuantity s n).quantities ++ [⟨s.nextId, n, false, false⟩])
                    s.nextId true
                  nextId := s.nextId + 1 } := by
            simp [addQuantityPlain, hq, hen]
          rw [heq]
          exact enable_inv
            { removeQuantity s n with
                quantities := (removeQuantity s n).quantities ++ [⟨s.nextId, n, false, false⟩]
                nextId := s.nextId + 1 }
            s.nextId happ

lemma addDraws_inv (s : PCState) (n : String) (h : Inv s) :
    Inv (addQuantityDraws s n) := by
  cases hq : findQ s.quantities n with
  | none =>
      have heq : addQuantityDraws s n =
          { s with quantities := s.quantities ++ [⟨s.nextId, n, true, false⟩],
                   nextId := s.nextId + 1 } := by
        simp [addQuantityDraws, hq]
      rw [heq]
      exact append_fresh_inv s n true false h (findQ_eq_none_iff.1 hq)
  | some q =>
      have hrem := removeQuantity_inv n h
      have hremNames := removeQuantity_names s n
      have hremNext := removeQuantity_nextId s n
      have happ := append_fresh_inv (removeQuantity s n) n true false hrem hremNames
      rw [hremNext] at happ
      cases hen : q.enabled with
      | false =>
          have heq : addQuantityDraws s n =
              { removeQuantity s n with
                  quantities := (removeQuantity s n).quantities ++ [⟨s.nextId, n, true, false⟩]
                  nextId := s.nextId + 1 } := by
            simp [addQuantityDraws, hq, hen]
          rw [heq]
          exact happ
      | true =>
          have henab := enable_inv
            { removeQuantity s n with
                quantities := (removeQuantity s n).quantities ++ [⟨s.nextId, n, true, false⟩]
                nextId := s.nextId + 1 }
            s.nextId happ
          have heq : addQuantityDraws s n =
              setActiveQuantity
                { removeQuantity s n with
                    quantities := setEnabledById
                      ((removeQuantity s n).quantities ++ [⟨s.nextId, n, true, false⟩])
                      s.nextId true
                    nextId := s.nextId + 1 }
                s.nextId := by
            simp [addQuantityDraws, hq, hen]
          rw [heq]
          refine setActive_inv henab ?_
      -- the freshly stored drawing quantity is registered with identity
      -- `s.nextId` after the enabled-flag write
          refine ⟨⟨s.nextId, n, true, true⟩, ?_, rfl, rfl⟩
          show _ ∈ setEnabledById
            ((removeQuantity s n).quantities ++ [⟨s.nextId, n, true, false⟩]) s.nextId true
          rw [setEnabledById_snoc]
          refine List.mem_append.2 (Or.inr ?_)
          simp

lemma removeAllAux_inv : ∀ (fuel : ℕ) (s : PCState), Inv s → Inv (removeAllAux fuel s)
  | 0, s, h => h
  | fuel + 1, s, h => by
      cases hqs : s.quantities with
      | nil =>
          simpa [removeAllAux, hqs] using h
      | cons q rest =>
          have : removeAllAux (fuel + 1) s = removeAllAux fuel (removeQuantity s q.qname) := by
            simp [removeAllAux, hqs]
          rw [this]
          exact removeAllAux_inv fuel _ (removeQuantity_inv q.qname h)

lemma stepOp_inv (s : PCState) (op : Op) (h : Inv s) : Inv (stepOp s op) := by
  cases op with
  | addPlain n => exact addPlain_inv s n h
  | addDraws n => exact addDraws_inv s n h
  | setActive i =>
      cases hf : s.quantities.find? (fun r => r.qid == i) with
      | none => simpa [stepOp, hf] using h
      | some q =>
          cases hd : q.drawsPoints with
          | false => simpa [stepOp, hf, hd] using h
          | true =>
              have heq : stepOp s (Op.setActive i) = setActiveQuantity s i := by
                simp [stepOp, hf, hd]
              rw [heq]
              refine setActive_inv h ⟨q, List.mem_of_find?_eq_some hf, ?_, hd⟩
              have := List.find?_some hf
              simpa using this
  | removeOne n => exact removeQuantity_inv n h
  | removeAll => exact removeAllAux_inv s.quantities.length s h

lemma runOps_inv : ∀ (ops : List Op) (s : PCState), Inv s → Inv (runOps ops s)
  | [], _, h => h
  | op :: rest, s, h => by
      have : runOps (op :: rest) s = runOps rest (stepOp s op) := by
        simp [runOps]
      rw [this]
      exact runOps_inv rest _ (stepOp_inv s op h)

lemma init_inv (pts : List Vec3) (m : Affine) : Inv (initPC pts m) := by
  refine ⟨?_, ?_, ?_, ?_⟩ <;> simp [initPC, Inv]

/-- C4: after any sequence of `addQuantity` (either overload),
`setActiveQuantity` (on a drawing quantity registered in the map),
`removeQuantity` and `removeAllQuantities` calls on a freshly constructed
point cloud, at most one registry entry is the active drawing quantity
(any two entries the active reference designates are equal), and when the
active reference is non-null the referenced quantity is present in the
registry, is of the element-drawing variant, and has `enabled = true`. -/
theorem C4_activation_invariant (ops : List Op) (pts : List Vec3) (m : Affine) :
    (∀ i, (runOps ops (initPC pts m)).activePointQuantity = some i →
      ∃ r ∈ (runOps ops (initPC pts m)).quantities,
        r.qid = i ∧ r.drawsPoints = true ∧ r.enabled = true) ∧
    (∀ r1 ∈ (runOps ops (initPC pts m)).quantities,
      ∀ r2 ∈ (runOps ops (initPC pts m)).quantities,
        (runOps ops (initPC pts m)).activePointQuantity = some r1.qid →
        (runOps ops (initPC pts m)).activePointQuantity = some r2.qid → r1 = r2) := by
  obtain ⟨-, hid, -, hac⟩ := runOps_inv ops (initPC pts m) (init_inv pts m)
  refine ⟨hac, ?_⟩
  intro r1 h1 r2 h2 ha1 ha2
  have hqq : r1.qid = r2.qid := by
    rw [ha1] at ha2
    exact Option.some_inj.1 ha2
  exact List.inj_on_of_nodup_map hid h1 h2 hqq

/-- C4, witness: run `[addQuantity(drawing "a"), setActiveQuantity(it)]`
on an empty cloud; the active reference designates a registered, drawing,
enabled quantity. -/
theorem C4_witness :
    ∃ r ∈ (runOps [Op.addDraws "a", Op.setActive 0] (initPC [] idAffine)).quantities,
      r.qid = 0 ∧ r.drawsPoints = true ∧ r.enabled = true :=
  (C4_activation_invariant [Op.addDraws "a", Op.setActive 0] [] idAffine).1 0 rfl

end Polyscope
